import Mathlib

/-!
Verification of the sec-mcp hybrid blacklist storage
(`src/sec_mcp/storage_v2.py`).

Modelling conventions.  Python strings are lists of Unicode characters
(`PyStr`); Python `set` objects are duplicate-free lists manipulated through
`setAdd`/`setDiscard`; Python `dict` objects are association lists manipulated
through `dictSet`/`dictPop`; the unbounded Python `int` is `Int` (threat
scores, which the code stores but never computes with, are carried as `Int`).
Every function is executable so that concrete runs of the code can be checked
by `decide`.
-/

abbrev PyStr := List Char

/-- Shorthand to write a modelled Python string from a Lean string literal. -/
def pStr (s : String) : PyStr := s.data

/-- Python `str.lower()` restricted to ASCII letters (every input exercised by
a theorem below is ASCII; Python additionally folds non-ASCII letters). -/
def pyLower (s : PyStr) : PyStr := s.map Char.toLower

/-- Python `set.add`: insert if absent, keeping insertion order. -/
def setAdd {α : Type} [DecidableEq α] (x : α) (l : List α) : List α :=
  if x ∈ l then l else l ++ [x]

/-- Python `set.discard`: remove the element if present. -/
def setDiscard {α : Type} [DecidableEq α] (x : α) (l : List α) : List α :=
  l.filter (fun y => y ≠ x)

/-- Python `d[k] = v` on a dict: replace in place, else append. -/
def dictSet {α β : Type} [DecidableEq α] (k : α) (v : β) (m : List (α × β)) :
    List (α × β) :=
  if m.any (fun p => p.1 = k) then m.map (fun p => if p.1 = k then (k, v) else p)
  else m ++ [(k, v)]

/-- Python `d.pop(k, None)` on a dict. -/
def dictPop {α β : Type} [DecidableEq α] (k : α) (m : List (α × β)) : List (α × β) :=
  m.filter (fun p => p.1 ≠ k)

/-- Python `k in d` on a dict. -/
def dictMem {α β : Type} [DecidableEq α] (k : α) (m : List (α × β)) : Bool :=
  m.any (fun p => p.1 = k)

/-- Python `str.split(sep)` for a one-character separator (returns `[""]` on
the empty string, like Python). -/
def splitOnChar (sep : Char) : PyStr → List PyStr
  | [] => [[]]
  | c :: rest =>
    match splitOnChar sep rest with
    | [] => [[]]
    | h :: t => if c = sep then [] :: h :: t else (c :: h) :: t

/-- Python `sep.join(parts)` for a one-character separator. -/
def joinChar (sep : Char) : List PyStr → PyStr
  | [] => []
  | [p] => p
  | p :: q :: rest => p ++ sep :: joinChar sep (q :: rest)

/-- Python whitespace as stripped by `int()` (ASCII subset). -/
def isPySpace (c : Char) : Bool :=
  c = ' ' ∨ c = '\t' ∨ c = '\n' ∨ c = '\r' ∨ c = '\x0b' ∨ c = '\x0c'

/-- Strip leading and trailing whitespace. -/
def stripWs (s : PyStr) : PyStr :=
  ((s.dropWhile isPySpace).reverse.dropWhile isPySpace).reverse

/-- Python `int(s)` restricted to an optional sign followed by ASCII decimal
digits, surrounding whitespace stripped; `none` models `ValueError`.  (Python
additionally accepts underscores between digits and non-ASCII decimal digits;
no theorem below depends on such inputs.) -/
def pyInt (s : PyStr) : Option Int :=
  let t := stripWs s
  let signDigits : Bool × PyStr :=
    if t.take 1 = ['-'] then (true, t.drop 1)
    else if t.take 1 = ['+'] then (false, t.drop 1)
    else (false, t)
  let ds := signDigits.2
  if ds = [] then none
  else if ds.all Char.isDigit then
    let n : Nat := ds.foldl (fun a c => a * 10 + (c.toNat - 48)) 0
    some (if signDigits.1 then -(n : Int) else (n : Int))
  else none

/-- Python `str(n)` for a natural number (decimal digits, most significant
first). -/
def natRepr (n : Nat) : PyStr :=
  if n = 0 then ['0'] else (Nat.digits 10 n).reverse.map (fun d => Char.ofNat (48 + d))

/-- `storage_v2.ip_to_int`: `None` for strings containing `:`, for a part
count other than 4, and for parts `int()` rejects (`ValueError` is caught);
otherwise `(a << 24) + (b << 16) + (c << 8) + d`.  Python `<<` on unbounded
ints is multiplication by a power of two.  Note the source performs no range
check on the four parts. -/
def ip_to_int (ip : PyStr) : Option Int :=
  if ':' ∈ ip then none
  else
    match splitOnChar '.' ip with
    | [p0, p1, p2, p3] =>
      match pyInt p0, pyInt p1, pyInt p2, pyInt p3 with
      | some a, some b, some c, some d =>
        some (a * 2 ^ 24 + b * 2 ^ 16 + c * 2 ^ 8 + d)
      | _, _, _, _ => none
    | _ => none

/-- Python `x >> k` on an unbounded int (arithmetic shift, i.e. floor
division by a power of two). -/
def pyShr (x : Int) (k : Nat) : Int := Int.fdiv x (2 ^ k)

/-- Python `x & 0xFF` on an unbounded int: the nonnegative residue mod 256. -/
def pyAnd255 (x : Int) : Nat := (Int.emod x 256).toNat

/-- `storage_v2.int_to_ip`: the dotted quad built from
`(n >> 24) & 0xFF`, `(n >> 16) & 0xFF`, `(n >> 8) & 0xFF`, `n & 0xFF`. -/
def int_to_ip (n : Int) : PyStr :=
  joinChar '.'
    [natRepr (pyAnd255 (pyShr n 24)), natRepr (pyAnd255 (pyShr n 16)),
     natRepr (pyAnd255 (pyShr n 8)), natRepr (pyAnd255 n)]

/-- The canonical dotted-quad text of four octet values. -/
def ipv4Str (a b c d : Nat) : PyStr :=
  natRepr a ++ '.' :: natRepr b ++ '.' :: natRepr c ++ '.' :: natRepr d

/-! The URL canonicalizer.  `normalize_url` in the source is built on
`urllib.parse` (`urlparse`, `parse_qs`, `urlencode`, `urlunparse`); those
library functions are modelled below following CPython `urllib/parse.py`. -/

/-- Hex digit test (Python percent-escape parsing is case-insensitive). -/
def isHexDigit (c : Char) : Bool :=
  c.isDigit ∨ ('a' ≤ c ∧ c ≤ 'f') ∨ ('A' ≤ c ∧ c ≤ 'F')

/-- Numeric value of a hex digit. -/
def hexVal (c : Char) : Nat :=
  if c.isDigit then c.toNat - 48 else if 'a' ≤ c then c.toNat - 87 else c.toNat - 55

/-- Uppercase hex digit of a value below 16 (as emitted by `urllib.parse.quote`). -/
def hexDigitU (n : Nat) : Char :=
  if n < 10 then Char.ofNat (48 + n) else Char.ofNat (55 + n)

/-- UTF-8 encoding of one character (Python `str.encode("utf-8")`). -/
def utf8Encode (c : Char) : List Nat :=
  let n := c.toNat
  if n < 0x80 then [n]
  else if n < 0x800 then [0xC0 + n / 64, 0x80 + n % 64]
  else if n < 0x10000 then [0xE0 + n / 4096, 0x80 + n / 64 % 64, 0x80 + n % 64]
  else [0xF0 + n / 262144, 0x80 + n / 4096 % 64, 0x80 + n / 64 % 64, 0x80 + n % 64]

/-- Characters `urllib.parse.quote` never escapes (letters, digits, `_.-~`). -/
def alwaysSafe (c : Char) : Bool :=
  c.isAlpha ∨ c.isDigit ∨ c = '_' ∨ c = '.' ∨ c = '-' ∨ c = '~'

/-- `urllib.parse.quote_plus` with empty `safe`, as `urlencode` calls it:
safe characters kept, space mapped to `+`, every other character UTF-8
percent-escaped with uppercase hex. -/
def quote_plus (s : PyStr) : PyStr :=
  s.bind fun c =>
    if alwaysSafe c then [c]
    else if c = ' ' then ['+']
    else (utf8Encode c).bind fun b => ['%', hexDigitU (b / 16), hexDigitU (b % 16)]

/-- The Unicode replacement character U+FFFD. -/
def replacementChar : Char := Char.ofNat 0xFFFD

/-- UTF-8 continuation byte test. -/
def isCont (b : Nat) : Bool := 0x80 ≤ b ∧ b ≤ 0xBF

/-- Allowed second byte after a three-byte leader. -/
def cont2Ok (b b2 : Nat) : Bool :=
  if b = 0xE0 then 0xA0 ≤ b2 ∧ b2 ≤ 0xBF
  else if b = 0xED then 0x80 ≤ b2 ∧ b2 ≤ 0x9F
  else isCont b2

/-- Allowed second byte after a four-byte leader. -/
def cont4Ok (b b2 : Nat) : Bool :=
  if b = 0xF0 then 0x90 ≤ b2 ∧ b2 ≤ 0xBF
  else if b = 0xF4 then 0x80 ≤ b2 ∧ b2 ≤ 0x8F
  else isCont b2

/-- UTF-8 decoding with U+FFFD substitution (Python
`bytes.decode("utf-8", errors="replace")`): one replacement per maximal
invalid subpart, resuming at the first offending byte. -/
def utf8DecodeReplace : List Nat → List Char
  | [] => []
  | b :: rest =>
    if b < 0x80 then Char.ofNat b :: utf8DecodeReplace rest
    else if 0xC2 ≤ b ∧ b ≤ 0xDF then
      match rest with
      | [] => [replacementChar]
      | b2 :: r2 =>
        if isCont b2 then Char.ofNat ((b - 0xC0) * 64 + (b2 - 0x80)) :: utf8DecodeReplace r2
        else replacementChar :: utf8DecodeReplace (b2 :: r2)
    else if 0xE0 ≤ b ∧ b ≤ 0xEF then
      match rest with
      | [] => [replacementChar]
      | b2 :: r2 =>
        if cont2Ok b b2 then
          match r2 with
          | [] => [replacementChar]
          | b3 :: r3 =>
            if isCont b3 then
              Char.ofNat ((b - 0xE0) * 4096 + (b2 - 0x80) * 64 + (b3 - 0x80)) ::
                utf8DecodeReplace r3
            else replacementChar :: utf8DecodeReplace (b3 :: r3)
        else replacementChar :: utf8DecodeReplace (b2 :: r2)
    else if 0xF0 ≤ b ∧ b ≤ 0xF4 then
      match rest with
      | [] => [replacementChar]
      | b2 :: r2 =>
        if cont4Ok b b2 then
          match r2 with
          | [] => [replacementChar]
          | b3 :: r3 =>
            if isCont b3 then
              match r3 with
              | [] => [replacementChar]
              | b4 :: r4 =>
                if isCont b4 then
                  Char.ofNat ((b - 0xF0) * 262144 + (b2 - 0x80) * 4096 +
                    (b3 - 0x80) * 64 + (b4 - 0x80)) :: utf8DecodeReplace r4
                else replacementChar :: utf8DecodeReplace (b4 :: r4)
            else replacementChar :: utf8DecodeReplace (b3 :: r3)
        else replacementChar :: utf8DecodeReplace (b2 :: r2)
    else replacementChar :: utf8DecodeReplace rest

/-- Token stream produced while scanning a percent-encoded string: literal
characters and decoded escape bytes. -/
inductive QTok where
  | lit (c : Char)
  | byte (b : Nat)
deriving DecidableEq

/-- Scan for percent escapes: `%XX` with two hex digits becomes a byte, any
other `%` stays literal (CPython `unquote` segment handling). -/
def unquoteTokens : PyStr → List QTok
  | [] => []
  | '%' :: a :: b :: rest =>
    if isHexDigit a ∧ isHexDigit b then
      QTok.byte (hexVal a * 16 + hexVal b) :: unquoteTokens rest
    else QTok.lit '%' :: unquoteTokens (a :: b :: rest)
  | c :: rest => QTok.lit c :: unquoteTokens rest

/-- Test for a byte token. -/
def isByteTok : QTok → Bool
  | QTok.byte _ => true
  | QTok.lit _ => false

/-- Value of a byte token. -/
def byteTokVal : QTok → Nat
  | QTok.byte b => b
  | QTok.lit _ => 0

/-- Rebuild the string: maximal runs of escape bytes are UTF-8 decoded with
replacement, literals pass through. -/
def unquoteJoin : List QTok → PyStr
  | [] => []
  | QTok.lit c :: t => c :: unquoteJoin t
  | QTok.byte b :: t =>
    let run := t.takeWhile isByteTok
    utf8DecodeReplace (b :: run.map byteTokVal) ++ unquoteJoin (t.drop run.length)
termination_by l => l.length
decreasing_by
  · simp
  · simp only [List.length_cons, List.length_drop]
    omega

/-- `urllib.parse.unquote` with UTF-8 and `errors="replace"`. -/
def unquote (s : PyStr) : PyStr := unquoteJoin (unquoteTokens s)

/-- Python `s.replace("+", " ")` as applied by `parse_qsl`. -/
def replacePlus (s : PyStr) : PyStr := s.map fun c => if c = '+' then ' ' else c

/-- `urllib.parse.parse_qsl` with default arguments: split on `&`, skip empty
pieces, skip pairs without `=` or with an empty value (blank values are
dropped), then `+`-to-space and percent-decode names and values. -/
def parse_qsl (qs : PyStr) : List (PyStr × PyStr) :=
  if qs = [] then []
  else
    (splitOnChar '&' qs).foldl
      (fun acc nameValue =>
        if nameValue = [] then acc
        else
          match nameValue.findIdx? (· = '=') with
          | none => acc
          | some i =>
            let value := nameValue.drop (i + 1)
            if value = [] then acc
            else acc ++ [(unquote (replacePlus (nameValue.take i)),
                          unquote (replacePlus value))])
      []

/-- `urllib.parse.parse_qs`: group the `parse_qsl` pairs, keys in first-seen
order, values in order of appearance. -/
def parse_qs (qs : PyStr) : List (PyStr × List PyStr) :=
  (parse_qsl qs).foldl
    (fun d kv =>
      if d.any (fun p => p.1 = kv.1) then
        d.map (fun p => if p.1 = kv.1 then (p.1, p.2 ++ [kv.2]) else p)
      else d ++ [(kv.1, [kv.2])])
    []

/-- `urllib.parse.urlencode` with `doseq=True` over string keys and list
values (the shape `parse_qs` produces). -/
def urlencode (query : List (PyStr × List PyStr)) : PyStr :=
  joinChar '&'
    (query.bind fun kv => kv.2.map fun v => quote_plus kv.1 ++ '=' :: quote_plus v)

/-- Characters allowed in a URL scheme (`urllib.parse.scheme_chars`). -/
def schemeChars (c : Char) : Bool :=
  c.isAlpha ∨ c.isDigit ∨ c = '+' ∨ c = '-' ∨ c = '.'

/-- Result of `urlsplit`. -/
structure SplitResult where
  scheme : PyStr
  netloc : PyStr
  path : PyStr
  query : PyStr
  fragment : PyStr
deriving DecidableEq

/-- Split a string at the first occurrence of a character (the character is
dropped); identity with empty second component when absent. -/
def splitAtFirst (c : Char) (s : PyStr) : PyStr × PyStr :=
  match s.findIdx? (· = c) with
  | none => (s, [])
  | some i => (s.take i, s.drop (i + 1))

/-- `urllib.parse.urlsplit` (CPython 3.10 and later): leading C0-control and
space characters stripped, then tab, CR and LF removed anywhere; the prefix
before the first `:` becomes the scheme when it starts
with an ASCII letter and uses only scheme characters; after a leading `//` the
netloc runs up to the first `/`, `?` or `#`, with `ValueError` (modelled as
`Except.error`) on unbalanced square brackets; then the fragment is split at
the first `#` and the query at the first `?`.  The non-ASCII `_checknetloc`
NFKC check and the `_check_bracketed_host` validation are not modelled (no
theorem below exercises a netloc with brackets or non-ASCII characters). -/
def urlsplitE (url0 : PyStr) : Except Unit SplitResult :=
  let urlA := url0.dropWhile fun c => c.toNat ≤ 0x20
  let url1 := urlA.filter fun c => ¬(c = '\t' ∨ c = '\r' ∨ c = '\n')
  let schemeUrl : PyStr × PyStr :=
    match url1.findIdx? (· = ':') with
    | some i =>
      if 0 < i ∧ (url1.headD ' ').isAlpha ∧ (url1.take i).all schemeChars then
        (pyLower (url1.take i), url1.drop (i + 1))
      else ([], url1)
    | none => ([], url1)
  let scheme := schemeUrl.1
  let url2 := schemeUrl.2
  let netlocUrl : PyStr × PyStr :=
    if url2.take 2 = ['/', '/'] then
      ((url2.drop 2).takeWhile fun c => ¬(c = '/' ∨ c = '?' ∨ c = '#'),
       (url2.drop 2).dropWhile fun c => ¬(c = '/' ∨ c = '?' ∨ c = '#'))
    else ([], url2)
  let netloc := netlocUrl.1
  if ('[' ∈ netloc ∧ ']' ∉ netloc) ∨ (']' ∈ netloc ∧ '[' ∉ netloc) then Except.error ()
  else
    let url3 := netlocUrl.2
    let urlFrag : PyStr × PyStr := if '#' ∈ url3 then splitAtFirst '#' url3 else (url3, [])
    let urlQuery : PyStr × PyStr :=
      if '?' ∈ urlFrag.1 then splitAtFirst '?' urlFrag.1 else (urlFrag.1, [])
    Except.ok ⟨scheme, netloc, urlQuery.1, urlQuery.2, urlFrag.2⟩

/-- Index of the last occurrence of a character (Python `str.rfind`). -/
def rfindIdx (c : Char) (s : PyStr) : Option Nat :=
  (s.reverse.findIdx? (· = c)).map fun k => s.length - 1 - k

/-- `urllib.parse._splitparams` (the source only calls it when `;` occurs in
the path): parameters start at the first `;` after the last `/`, or at the
first `;` when the path has no `/`. -/
def splitParams (url : PyStr) : PyStr × PyStr :=
  if '/' ∈ url then
    let j := (rfindIdx '/' url).getD 0
    match (url.drop j).findIdx? (· = ';') with
    | none => (url, [])
    | some k => (url.take (j + k), url.drop (j + k + 1))
  else
    match url.findIdx? (· = ';') with
    | none => (url, [])
    | some i => (url.take i, url.drop (i + 1))

/-- `urllib.parse.uses_params`. -/
def uses_params : List PyStr :=
  [pStr (""), pStr ("ftp"), pStr ("hdl"), pStr ("prospero"), pStr ("http"),
   pStr ("imap"), pStr ("https"), pStr ("shttp"), pStr ("rtsp"), pStr ("rtsps"),
   pStr ("rtspu"), pStr ("sip"), pStr ("sips"), pStr ("mms"), pStr ("sftp"),
   pStr ("tel")]

/-- `urllib.parse.uses_netloc`. -/
def uses_netloc : List PyStr :=
  [pStr (""), pStr ("ftp"), pStr ("http"), pStr ("gopher"), pStr ("nntp"),
   pStr ("telnet"), pStr ("imap"), pStr ("wais"), pStr ("file"), pStr ("mms"),
   pStr ("https"), pStr ("shttp"), pStr ("snews"), pStr ("prospero"),
   pStr ("rtsp"), pStr ("rtsps"), pStr ("rtspu"), pStr ("rsync"), pStr ("svn"),
   pStr ("svn+ssh"), pStr ("sftp"), pStr ("nfs"), pStr ("git"), pStr ("git+ssh"),
   pStr ("ws"), pStr ("wss")]

/-- Result of `urlparse`. -/
structure ParseResult where
  scheme : PyStr
  netloc : PyStr
  path : PyStr
  params : PyStr
  query : PyStr
  fragment : PyStr
deriving DecidableEq

/-- `urllib.parse.urlparse`: `urlsplit`, then split path parameters when the
scheme uses them and the path contains `;`. -/
def urlparseE (url : PyStr) : Except Unit ParseResult := do
  let r ← urlsplitE url
  let pathParams : PyStr × PyStr :=
    if r.scheme ∈ uses_params ∧ ';' ∈ r.path then splitParams r.path else (r.path, [])
  return ⟨r.scheme, r.netloc, pathParams.1, pathParams.2, r.query, r.fragment⟩

/-- `urllib.parse.urlunsplit` (CPython 3.10 and later): the `//` is inserted
when a netloc is present, or when the scheme uses one and the path does not
already start with `//`. -/
def urlunsplit (scheme netloc url query fragment : PyStr) : PyStr :=
  let u1 :=
    if netloc ≠ [] ∨ (scheme ≠ [] ∧ scheme ∈ uses_netloc ∧ url.take 2 ≠ ['/', '/']) then
      '/' :: '/' :: netloc ++ (if url ≠ [] ∧ url.take 1 ≠ ['/'] then '/' :: url else url)
    else url
  let u2 := if scheme ≠ [] then scheme ++ ':' :: u1 else u1
  let u3 := if query ≠ [] then u2 ++ '?' :: query else u2
  if fragment ≠ [] then u3 ++ '#' :: fragment else u3

/-- `urllib.parse.urlunparse`. -/
def urlunparse (scheme netloc url params query fragment : PyStr) : PyStr :=
  urlunsplit scheme netloc (if params ≠ [] then url ++ ';' :: params else url) query fragment

/-- Python `str.rstrip("/")`: remove every trailing slash. -/
def rstripSlash (s : PyStr) : PyStr := (s.reverse.dropWhile (· = '/')).reverse

/-- The tracking-parameter set of `storage_v2.normalize_url`. -/
def tracking_params : List PyStr :=
  [pStr ("utm_source"), pStr ("utm_medium"), pStr ("utm_campaign"),
   pStr ("utm_term"), pStr ("utm_content"), pStr ("fbclid"), pStr ("gclid"),
   pStr ("mc_eid"), pStr ("_ga"), pStr ("ref"), pStr ("referrer")]

/-- `storage_v2.normalize_url`: lowercase, parse, drop tracking query
parameters, rebuild with default scheme `http`, the path stripped of trailing
slashes (`"/"` when that leaves it empty), path parameters and fragment
dropped; on a parse error return the lowercased input. -/
def normalize_url (url : PyStr) : PyStr :=
  match urlparseE (pyLower url) with
  | Except.error _ => pyLower url
  | Except.ok parsed =>
    let query_string : PyStr :=
      if parsed.query ≠ [] then
        urlencode ((parse_qs parsed.query).filter fun kv => pyLower kv.1 ∉ tracking_params)
      else []
    let path0 := rstripSlash parsed.path
    urlunparse (if parsed.scheme = [] then pStr ("http") else parsed.scheme)
      parsed.netloc (if path0 = [] then ['/'] else path0) [] query_string []

/-! IP address and CIDR parsing, modelling the behaviour of `ipaddress` and
`pytricia` as the storage observes them: lookups and insertions raise
`ValueError` (modelled as `none`) on malformed text. -/

/-- One decimal octet of a strict IPv4 text: one to three digits, value at
most 255, no leading zero. -/
def parseOctet (p : PyStr) : Option Nat :=
  if p ≠ [] ∧ p.length ≤ 3 ∧ p.all Char.isDigit ∧ (p.length = 1 ∨ p.headD '0' ≠ '0') then
    let n := p.foldl (fun a c => a * 10 + (c.toNat - 48)) 0
    if n ≤ 255 then some n else none
  else none

/-- Strict IPv4 address text (dotted quad), as accepted by
`ipaddress`/`pytricia`; returns the 32-bit value. -/
def parseIPv4 (s : PyStr) : Option Nat :=
  match splitOnChar '.' s with
  | [p0, p1, p2, p3] => do
    let a ← parseOctet p0
    let b ← parseOctet p1
    let c ← parseOctet p2
    let d ← parseOctet p3
    return a * 16777216 + b * 65536 + c * 256 + d
  | _ => none

/-- One hex group of an IPv6 text: one to four hex digits. -/
def parseHexGroup (p : PyStr) : Option Nat :=
  if p ≠ [] ∧ p.length ≤ 4 ∧ p.all isHexDigit then
    some (p.foldl (fun a c => a * 16 + hexVal c) 0)
  else none

/-- Fold hex groups into a 128-bit value. -/
def groupsVal (gs : List Nat) : Nat := gs.foldl (fun a g => a * 65536 + g) 0

/-- IPv6 address text with at most one `::` compression, as accepted by
`ipaddress`/`pytricia`; returns the 128-bit value.  (Embedded IPv4 tails and
zone identifiers are not modelled; no theorem below depends on them.) -/
def parseIPv6 (s : PyStr) : Option Nat :=
  let parts := splitOnChar ':' s
  let n := parts.length
  if parts = [[], [], []] then some 0
  else
    match (List.range n).filter (fun i => parts.getD i [] = []) with
    | [] =>
      if n = 8 then (parts.mapM parseHexGroup).map groupsVal else none
    | [i] =>
      if 0 < i ∧ i + 1 < n ∧ n ≤ 8 then
        match (parts.take i).mapM parseHexGroup, (parts.drop (i + 1)).mapM parseHexGroup with
        | some lg, some rg =>
          some (groupsVal (lg ++ List.replicate (8 - lg.length - rg.length) 0 ++ rg))
        | _, _ => none
      else none
    | [i, j] =>
      if i = 0 ∧ j = 1 ∧ 2 < n ∧ n ≤ 9 then
        match (parts.drop 2).mapM parseHexGroup with
        | some rg => some (groupsVal (List.replicate (8 - rg.length) 0 ++ rg))
        | none => none
      else if i + 2 = n ∧ j + 1 = n ∧ 2 < n ∧ n ≤ 9 then
        match (parts.take (n - 2)).mapM parseHexGroup with
        | some lg => some (groupsVal (lg ++ List.replicate (8 - lg.length) 0))
        | none => none
      else none
    | _ => none

/-- `ipaddress.ip_address`: IPv4 first, then IPv6; `none` models
`ValueError`. -/
def ip_address (s : PyStr) : Option (Sum Nat Nat) :=
  match parseIPv4 s with
  | some a => some (Sum.inl a)
  | none => (parseIPv6 s).map Sum.inr

/-- Does an IPv4 CIDR string (or bare address) cover a 32-bit address?  Host
bits are masked (`strict=False` semantics).  Malformed strings cover
nothing. -/
def cidr4Covers (cidr : PyStr) (addr : Nat) : Bool :=
  match splitOnChar '/' cidr with
  | [ipPart] => parseIPv4 ipPart = some addr
  | [ipPart, lenPart] =>
    match parseIPv4 ipPart, pyInt lenPart with
    | some net, some len =>
      0 ≤ len ∧ len ≤ 32 ∧ addr / 2 ^ (32 - len.toNat) = net / 2 ^ (32 - len.toNat)
    | _, _ => false
  | _ => false

/-- IPv6 analogue of `cidr4Covers`. -/
def cidr6Covers (cidr : PyStr) (addr : Nat) : Bool :=
  match splitOnChar '/' cidr with
  | [ipPart] => parseIPv6 ipPart = some addr
  | [ipPart, lenPart] =>
    match parseIPv6 ipPart, pyInt lenPart with
    | some net, some len =>
      0 ≤ len ∧ len ≤ 128 ∧ addr / 2 ^ (128 - len.toNat) = net / 2 ^ (128 - len.toNat)
    | _, _ => false
  | _ => false

/-- Is a string a valid IPv4 CIDR (or bare address) for insertion? -/
def cidrValid4 (cidr : PyStr) : Bool :=
  match splitOnChar '/' cidr with
  | [ipPart] => (parseIPv4 ipPart).isSome
  | [ipPart, lenPart] =>
    match parseIPv4 ipPart, pyInt lenPart with
    | some _, some len => 0 ≤ len ∧ len ≤ 32
    | _, _ => false
  | _ => false

/-- Is a string a valid IPv6 CIDR (or bare address) for insertion? -/
def cidrValid6 (cidr : PyStr) : Bool :=
  match splitOnChar '/' cidr with
  | [ipPart] => (parseIPv6 ipPart).isSome
  | [ipPart, lenPart] =>
    match parseIPv6 ipPart, pyInt lenPart with
    | some _, some len => 0 ≤ len ∧ len ≤ 128
    | _, _ => false
  | _ => false

/-- `pytricia.PyTricia.__setitem__` on the IPv4 tree: `none` models the
`ValueError` raised on malformed keys, otherwise the key/value pair is
stored. -/
def pytriciaSet4 (tree : List (PyStr × PyStr)) (key value : PyStr) :
    Option (List (PyStr × PyStr)) :=
  if cidrValid4 key then some (dictSet key value tree) else none

/-- `pytricia.PyTricia.__setitem__` on the IPv6 tree. -/
def pytriciaSet6 (tree : List (PyStr × PyStr)) (key value : PyStr) :
    Option (List (PyStr × PyStr)) :=
  if cidrValid6 key then some (dictSet key value tree) else none

/-- `ip in tree` on the IPv4 `pytricia` tree: parse the key (`none` models
`ValueError`), else report whether some stored prefix covers it. -/
def pytriciaContains4 (tree : List (PyStr × PyStr)) (key : PyStr) : Option Bool :=
  (parseIPv4 key).map fun addr => tree.any fun e => cidr4Covers e.1 addr

/-- `ip in tree` on the IPv6 `pytricia` tree. -/
def pytriciaContains6 (tree : List (PyStr × PyStr)) (key : PyStr) : Option Bool :=
  (parseIPv6 key).map fun addr => tree.any fun e => cidr6Covers e.1 addr

/-- `ipaddress.ip_network(cidr, strict=False)` validity (used by the
non-pytricia fallback). -/
def ipNetworkValid (s : PyStr) : Bool := cidrValid4 s ∨ cidrValid6 s

/-- `addr in network` for the fallback linear scan (families must match). -/
def addrInNetwork (a : Sum Nat Nat) (cidr : PyStr) : Bool :=
  match a with
  | Sum.inl v4 => cidr4Covers cidr v4
  | Sum.inr v6 => cidr6Covers cidr v6

/-! The storage state.  Field names follow the `HybridStorage` attributes
(leading underscores dropped). -/

/-- `storage_v2.EntryMetadata` (the float score is carried as `Int`; the code
never computes with it). -/
structure EntryMetadata where
  source : PyStr
  date : PyStr
  score : Int
deriving DecidableEq

/-- The in-memory state of `HybridStorage`.  The two `pytricia` trees are
modelled as association lists from CIDR text to source; `use_pytricia` selects
between them and the fallback `cidr_ranges` list, exactly as in the source. -/
structure Storage where
  domains : List PyStr
  urls : List PyStr
  ips : List PyStr
  hot_domains : List PyStr
  cold_domains : List PyStr
  hot_urls : List PyStr
  cold_urls : List PyStr
  ips_int : List Int
  ips_str : List PyStr
  hot_ips_int : List Int
  cold_ips_int : List Int
  hot_ips_str : List PyStr
  cold_ips_str : List PyStr
  domain_meta : List (PyStr × EntryMetadata)
  url_meta : List (PyStr × EntryMetadata)
  ip_meta : List (PyStr × EntryMetadata)
  ip_int_meta : List (Int × EntryMetadata)
  cidr_metadata : List (PyStr × EntryMetadata)
  ipv4_cidr_tree : List (PyStr × PyStr)
  ipv6_cidr_tree : List (PyStr × PyStr)
  use_pytricia : Bool
  cidr_ranges : List (PyStr × EntryMetadata)
deriving DecidableEq

/-- The three SQLite tables; rows are `(key, date, score, source)` keyed on
the first column. -/
structure Database where
  blacklist_domain : List (PyStr × PyStr × Int × PyStr)
  blacklist_url : List (PyStr × PyStr × Int × PyStr)
  blacklist_ip : List (PyStr × PyStr × Int × PyStr)
deriving DecidableEq

/-- SQLite `INSERT OR REPLACE` keyed on the first column. -/
def dbUpsert (rows : List (PyStr × PyStr × Int × PyStr)) (key date : PyStr)
    (score : Int) (source : PyStr) : List (PyStr × PyStr × Int × PyStr) :=
  if rows.any (fun r => r.1 = key) then
    rows.map (fun r => if r.1 = key then (key, date, score, source) else r)
  else rows ++ [(key, date, score, source)]

/-- SQLite `DELETE FROM t WHERE key = value`. -/
def dbDelete (rows : List (PyStr × PyStr × Int × PyStr)) (key : PyStr) :
    List (PyStr × PyStr × Int × PyStr) :=
  rows.filter (fun r => r.1 ≠ key)

/-- `storage_v2.HOT_DOMAIN_SOURCES`. -/
def HOT_DOMAIN_SOURCES : List PyStr := [pStr ("PhishTank"), pStr ("PhishStats")]

/-- `storage_v2.HOT_URL_SOURCES`. -/
def HOT_URL_SOURCES : List PyStr := [pStr ("PhishTank"), pStr ("URLhaus")]

/-- `storage_v2.HOT_IP_SOURCES`. -/
def HOT_IP_SOURCES : List PyStr := [pStr ("BlocklistDE"), pStr ("CINSSCORE")]

/-- A freshly initialised storage over an empty database, with `pytricia`
available. -/
def initStorage : Storage :=
  ⟨[], [], [], [], [], [], [], [], [], [], [], [], [], [], [], [], [], [], [], [],
   true, []⟩

/-- An empty database. -/
def emptyDb : Database := ⟨[], [], []⟩

/-! Write operations.  Each single-entry `add_*` takes a `commitOk` flag
modelling whether the SQLite commit succeeds; the returned Bool is true when
the Python call raises (the commit failure is re-raised after the in-memory
rollback the source performs). -/

/-- `HybridStorage.add_domain`. -/
def add_domain (s : Storage) (db : Database) (domain date : PyStr) (score : Int)
    (source : PyStr) (commitOk : Bool) : Storage × Database × Bool :=
  let domain_lower := pyLower domain
  let metadata : EntryMetadata := ⟨source, date, score⟩
  let s1 := { s with
    domains := setAdd domain_lower s.domains
    domain_meta := dictSet domain_lower metadata s.domain_meta
    hot_domains :=
      if source ∈ HOT_DOMAIN_SOURCES then setAdd domain_lower s.hot_domains
      else s.hot_domains
    cold_domains :=
      if source ∈ HOT_DOMAIN_SOURCES then s.cold_domains
      else setAdd domain_lower s.cold_domains }
  if commitOk then
    (s1, { db with blacklist_domain := dbUpsert db.blacklist_domain domain date score source },
     false)
  else
    ({ s1 with
        domains := setDiscard domain_lower s1.domains
        domain_meta := dictPop domain_lower s1.domain_meta
        hot_domains := setDiscard domain_lower s1.hot_domains
        cold_domains := setDiscard domain_lower s1.cold_domains },
     db, true)

/-- `HybridStorage.add_url`. -/
def add_url (s : Storage) (db : Database) (url date : PyStr) (score : Int)
    (source : PyStr) (commitOk : Bool) : Storage × Database × Bool :=
  let url_normalized := normalize_url url
  let metadata : EntryMetadata := ⟨source, date, score⟩
  let s1 := { s with
    urls := setAdd url_normalized s.urls
    url_meta := dictSet url_normalized metadata s.url_meta
    hot_urls :=
      if source ∈ HOT_URL_SOURCES then setAdd url_normalized s.hot_urls else s.hot_urls
    cold_urls :=
      if source ∈ HOT_URL_SOURCES then s.cold_urls else setAdd url_normalized s.cold_urls }
  if commitOk then
    (s1, { db with blacklist_url := dbUpsert db.blacklist_url url date score source }, false)
  else
    ({ s1 with
        urls := setDiscard url_normalized s1.urls
        url_meta := dictPop url_normalized s1.url_meta
        hot_urls := setDiscard url_normalized s1.hot_urls
        cold_urls := setDiscard url_normalized s1.cold_urls },
     db, true)

/-- The in-memory CIDR insertion of `add_ip`/`add_ips`/the IP loader:
`none` models the `ValueError` raised (pytricia on a malformed key) or
re-raised (fallback `ip_network` failure) before `cidr_metadata` is touched. -/
def addCidrMem (s : Storage) (ip : PyStr) (metadata : EntryMetadata) : Option Storage :=
  if s.use_pytricia then
    if ':' ∈ ip then
      (pytriciaSet6 s.ipv6_cidr_tree ip metadata.source).map
        fun t => { s with ipv6_cidr_tree := t }
    else
      (pytriciaSet4 s.ipv4_cidr_tree ip metadata.source).map
        fun t => { s with ipv4_cidr_tree := t }
  else
    if ipNetworkValid ip then some { s with cidr_ranges := s.cidr_ranges ++ [(ip, metadata)] }
    else none

/-- The in-memory single-IP insertion shared by `add_ip`, `add_ips` and the
IP loader: IPv4 goes to the integer sets, everything else to the string sets,
plus the legacy `ips` set and `ip_meta` backfill. -/
def addSingleIpMem (s : Storage) (ip : PyStr) (metadata : EntryMetadata) : Storage :=
  let s1 :=
    match ip_to_int ip with
    | some ip_int =>
      { s with
        ips_int := setAdd ip_int s.ips_int
        ip_int_meta := dictSet ip_int metadata s.ip_int_meta
        hot_ips_int :=
          if metadata.source ∈ HOT_IP_SOURCES then setAdd ip_int s.hot_ips_int
          else s.hot_ips_int
        cold_ips_int :=
          if metadata.source ∈ HOT_IP_SOURCES then s.cold_ips_int
          else setAdd ip_int s.cold_ips_int }
    | none =>
      { s with
        ips_str := setAdd ip s.ips_str
        ip_meta := dictSet ip metadata s.ip_meta
        hot_ips_str :=
          if metadata.source ∈ HOT_IP_SOURCES then setAdd ip s.hot_ips_str
          else s.hot_ips_str
        cold_ips_str :=
          if metadata.source ∈ HOT_IP_SOURCES then s.cold_ips_str
          else setAdd ip s.cold_ips_str }
  { s1 with
    ips := setAdd ip s1.ips
    ip_meta := if dictMem ip s1.ip_meta then s1.ip_meta else dictSet ip metadata s1.ip_meta }

/-- `HybridStorage.add_ip`. -/
def add_ip (s : Storage) (db : Database) (ip date : PyStr) (score : Int)
    (source : PyStr) (commitOk : Bool) : Storage × Database × Bool :=
  let metadata : EntryMetadata := ⟨source, date, score⟩
  if '/' ∈ ip then
    match addCidrMem s ip metadata with
    | none => (s, db, true)
    | some s1 =>
      let s2 := { s1 with cidr_metadata := dictSet ip metadata s1.cidr_metadata }
      if commitOk then
        (s2, { db with blacklist_ip := dbUpsert db.blacklist_ip ip date score source }, false)
      else ({ s2 with cidr_metadata := dictPop ip s2.cidr_metadata }, db, true)
  else
    let s2 := addSingleIpMem s ip metadata
    if commitOk then
      (s2, { db with blacklist_ip := dbUpsert db.blacklist_ip ip date score source }, false)
    else
      (match ip_to_int ip with
       | some ip_int =>
         { s2 with
            ips_int := setDiscard ip_int s2.ips_int
            ip_int_meta := dictPop ip_int s2.ip_int_meta
            hot_ips_int := setDiscard ip_int s2.hot_ips_int
            cold_ips_int := setDiscard ip_int s2.cold_ips_int
            ips := setDiscard ip s2.ips }
       | none =>
         { s2 with
            ips_str := setDiscard ip s2.ips_str
            ip_meta := dictPop ip s2.ip_meta
            hot_ips_str := setDiscard ip s2.hot_ips_str
            cold_ips_str := setDiscard ip s2.cold_ips_str
            ips := setDiscard ip s2.ips },
       db, true)

/-- The in-memory step of the `add_domains` loop. -/
def addDomainRowMem (s : Storage) (row : PyStr × PyStr × Int × PyStr) : Storage :=
  let domain_lower := pyLower row.1
  let metadata : EntryMetadata := ⟨row.2.2.2, row.2.1, row.2.2.1⟩
  { s with
    domains := setAdd domain_lower s.domains
    domain_meta := dictSet domain_lower metadata s.domain_meta
    hot_domains :=
      if metadata.source ∈ HOT_DOMAIN_SOURCES then setAdd domain_lower s.hot_domains
      else s.hot_domains
    cold_domains :=
      if metadata.source ∈ HOT_DOMAIN_SOURCES then s.cold_domains
      else setAdd domain_lower s.cold_domains }

/-- The in-memory step of the `add_urls` loop. -/
def addUrlRowMem (s : Storage) (row : PyStr × PyStr × Int × PyStr) : Storage :=
  let url_normalized := normalize_url row.1
  let metadata : EntryMetadata := ⟨row.2.2.2, row.2.1, row.2.2.1⟩
  { s with
    urls := setAdd url_normalized s.urls
    url_meta := dictSet url_normalized metadata s.url_meta
    hot_urls :=
      if metadata.source ∈ HOT_URL_SOURCES then setAdd url_normalized s.hot_urls
      else s.hot_urls
    cold_urls :=
      if metadata.source ∈ HOT_URL_SOURCES then s.cold_urls
      else setAdd url_normalized s.cold_urls }

/-- The in-memory step for one IP row (`add_ips` loop and the IP loader):
`none` models a `ValueError` escaping the step (pytricia on a malformed CIDR;
the fallback catches that case and continues with the state unchanged). -/
def addIpRowMem (s : Storage) (row : PyStr × PyStr × Int × PyStr) : Option Storage :=
  let metadata : EntryMetadata := ⟨row.2.2.2, row.2.1, row.2.2.1⟩
  if '/' ∈ row.1 then
    match addCidrMem s row.1 metadata with
    | none => if s.use_pytricia then none else some s
    | some s1 => some { s1 with cidr_metadata := dictSet row.1 metadata s1.cidr_metadata }
  else some (addSingleIpMem s row.1 metadata)

/-- `HybridStorage._load_domains_from_db`: insert every stored row into
memory (without clearing first), skipping empty-key rows. -/
def load_domains_from_db (s : Storage) (db : Database) : Storage :=
  db.blacklist_domain.foldl (fun t r => if r.1 = [] then t else addDomainRowMem t r) s

/-- `HybridStorage._load_urls_from_db`. -/
def load_urls_from_db (s : Storage) (db : Database) : Storage :=
  db.blacklist_url.foldl (fun t r => if r.1 = [] then t else addUrlRowMem t r) s

/-- `HybridStorage._load_ips_from_db`: every row runs inside a per-row
`try`, so empty keys and rows whose CIDR text fails to parse are skipped with
a warning. -/
def load_ips_from_db (s : Storage) (db : Database) : Storage :=
  db.blacklist_ip.foldl
    (fun t r =>
      if r.1 = [] then t
      else match addIpRowMem t r with
        | none => t
        | some t1 => t1)
    s

/-- `HybridStorage.add_domains`: apply every in-memory mutation, then commit
one transaction; on failure reload the domain table on top of memory and
re-raise. -/
def add_domains (s : Storage) (db : Database) (rows : List (PyStr × PyStr × Int × PyStr))
    (commitOk : Bool) : Storage × Database × Bool :=
  let s1 := rows.foldl addDomainRowMem s
  if commitOk then
    let t1 := rows.foldl (fun t r => dbUpsert t r.1 r.2.1 r.2.2.1 r.2.2.2) db.blacklist_domain
    (s1, { db with blacklist_domain := t1 }, false)
  else (load_domains_from_db s1 db, db, true)

/-- `HybridStorage.add_urls`. -/
def add_urls (s : Storage) (db : Database) (rows : List (PyStr × PyStr × Int × PyStr))
    (commitOk : Bool) : Storage × Database × Bool :=
  let s1 := rows.foldl addUrlRowMem s
  if commitOk then
    let t1 := rows.foldl (fun t r => dbUpsert t r.1 r.2.1 r.2.2.1 r.2.2.2) db.blacklist_url
    (s1, { db with blacklist_url := t1 }, false)
  else (load_urls_from_db s1 db, db, true)

/-- The in-memory loop of `add_ips`; the flag reports a `ValueError` that
aborts the loop (no transaction is attempted in that case). -/
def addIpsLoop : Storage → List (PyStr × PyStr × Int × PyStr) → Storage × Bool
  | s, [] => (s, false)
  | s, r :: rest =>
    match addIpRowMem s r with
    | none => (s, true)
    | some s1 => addIpsLoop s1 rest

/-- `HybridStorage.add_ips`. -/
def add_ips (s : Storage) (db : Database) (rows : List (PyStr × PyStr × Int × PyStr))
    (commitOk : Bool) : Storage × Database × Bool :=
  let l := addIpsLoop s rows
  if l.2 then (l.1, db, true)
  else
    let s1 := l.1
    if commitOk then
      let t1 := rows.foldl (fun t r => dbUpsert t r.1 r.2.1 r.2.2.1 r.2.2.2) db.blacklist_ip
      (s1, { db with blacklist_ip := t1 }, false)
    else (load_ips_from_db s1 db, db, true)

/-- `HybridStorage._load_all_data`: clear every in-memory structure (fresh
CIDR trees when pytricia is in use, else a cleared fallback list), then load
the three tables. -/
def load_all_data (s : Storage) (db : Database) : Storage :=
  let cleared : Storage := { s with
    domains := [], urls := [], ips := [], hot_domains := [], cold_domains := [],
    hot_urls := [], cold_urls := [], ips_int := [], ips_str := [],
    hot_ips_int := [], cold_ips_int := [], hot_ips_str := [], cold_ips_str := [],
    domain_meta := [], url_meta := [], ip_meta := [], ip_int_meta := [],
    cidr_metadata := [],
    ipv4_cidr_tree := if s.use_pytricia then [] else s.ipv4_cidr_tree,
    ipv6_cidr_tree := if s.use_pytricia then [] else s.ipv6_cidr_tree,
    cidr_ranges := if s.use_pytricia then s.cidr_ranges else [] }
  load_ips_from_db (load_urls_from_db (load_domains_from_db cleared db) db) db

/-! `remove_entry`, decomposed into its five sequential checks. -/

/-- First `remove_entry` check: the lowercased value in the domain set. -/
def removeDomainStep (s : Storage) (value : PyStr) : Storage × Bool :=
  if pyLower value ∈ s.domains then
    ({ s with
        domains := setDiscard (pyLower value) s.domains
        domain_meta := dictPop (pyLower value) s.domain_meta
        hot_domains := setDiscard (pyLower value) s.hot_domains
        cold_domains := setDiscard (pyLower value) s.cold_domains }, true)
  else (s, false)

/-- Second `remove_entry` check: the normalized value in the URL set. -/
def removeUrlStep (s : Storage) (value : PyStr) : Storage × Bool :=
  let value_normalized := normalize_url value
  if value_normalized ∈ s.urls then
    ({ s with
        urls := setDiscard value_normalized s.urls
        url_meta := dictPop value_normalized s.url_meta
        hot_urls := setDiscard value_normalized s.hot_urls
        cold_urls := setDiscard value_normalized s.cold_urls }, true)
  else (s, false)

/-- Third `remove_entry` check: the raw value in either string IP set. -/
def removeIpStrStep (s : Storage) (value : PyStr) : Storage × Bool :=
  if value ∈ s.ips ∨ value ∈ s.ips_str then
    ({ s with
        ips := setDiscard value s.ips
        ips_str := setDiscard value s.ips_str
        ip_meta := dictPop value s.ip_meta
        hot_ips_str := setDiscard value s.hot_ips_str
        cold_ips_str := setDiscard value s.cold_ips_str }, true)
  else (s, false)

/-- Fourth `remove_entry` check: the packed value in the integer IP set. -/
def removeIpIntStep (s : Storage) (value : PyStr) : Storage × Bool :=
  match ip_to_int value with
  | some ip_int =>
    if ip_int ∈ s.ips_int then
      ({ s with
          ips_int := setDiscard ip_int s.ips_int
          ip_int_meta := dictPop ip_int s.ip_int_meta
          hot_ips_int := setDiscard ip_int s.hot_ips_int
          cold_ips_int := setDiscard ip_int s.cold_ips_int
          ips := setDiscard value s.ips }, true)
    else (s, false)
  | none => (s, false)

/-- Fifth `remove_entry` check: the raw value a key of `cidr_metadata` (the
radix trees are left untouched, as the source notes). -/
def removeCidrStep (s : Storage) (value : PyStr) : Storage × Bool :=
  if dictMem value s.cidr_metadata then
    ({ s with cidr_metadata := dictPop value s.cidr_metadata }, true)
  else (s, false)

/-- `HybridStorage.remove_entry`: run the five checks in order; when any
matched, delete the raw value from all three tables. -/
def remove_entry (s : Storage) (db : Database) (value : PyStr) :
    Storage × Database × Bool :=
  let r1 := removeDomainStep s value
  let r2 := removeUrlStep r1.1 value
  let r3 := removeIpStrStep r2.1 value
  let r4 := removeIpIntStep r3.1 value
  let r5 := removeCidrStep r4.1 value
  let removed := r1.2 || r2.2 || r3.2 || r4.2 || r5.2
  if removed then
    (r5.1,
     { blacklist_domain := dbDelete db.blacklist_domain value
       blacklist_url := dbDelete db.blacklist_url value
       blacklist_ip := dbDelete db.blacklist_ip value }, true)
  else (r5.1, db, false)

/-! Lookups. -/

/-- `HybridStorage.is_domain_blacklisted`: lowercase, then check the exact
domain and every parent suffix against the hot shard, then the cold shard, in
source order. -/
def is_domain_blacklisted (s : Storage) (domain : PyStr) : Bool :=
  let d := pyLower domain
  let parts := splitOnChar '.' d
  decide (d ∈ s.hot_domains) ||
    (List.range' 1 (parts.length - 1)).any
      (fun i => decide (joinChar '.' (parts.drop i) ∈ s.hot_domains)) ||
    decide (d ∈ s.cold_domains) ||
    (List.range' 1 (parts.length - 1)).any
      (fun i => decide (joinChar '.' (parts.drop i) ∈ s.cold_domains))

/-- CIDR step of `is_ip_blacklisted`: pytricia lookup with `KeyError` and
`ValueError` caught (returning false), or the fallback linear scan whose
`ipaddress.ip_address` failure falls through to false. -/
def cidrCheck (s : Storage) (ip : PyStr) : Bool :=
  if s.use_pytricia then
    match
      (if ':' ∈ ip then pytriciaContains6 s.ipv6_cidr_tree ip
       else pytriciaContains4 s.ipv4_cidr_tree ip) with
    | some result => result
    | none => false
  else
    match ip_address ip with
    | some addr => s.cidr_ranges.any fun nw => addrInNetwork addr nw.1
    | none => false

/-- `HybridStorage.is_ip_blacklisted`: packed-integer exact match for inputs
`ip_to_int` accepts (hot then cold), string exact match otherwise, then the
CIDR check.  Every internal parse failure is caught in the source, so the
function is total and Bool-valued. -/
def is_ip_blacklisted (s : Storage) (ip : PyStr) : Bool :=
  let exactHit :=
    match ip_to_int ip with
    | some ip_int => decide (ip_int ∈ s.hot_ips_int) || decide (ip_int ∈ s.cold_ips_int)
    | none => decide (ip ∈ s.hot_ips_str) || decide (ip ∈ s.cold_ips_str)
  if exactHit then true else cidrCheck s ip

/-- `HybridStorage.count_entries`: the sum of the six collection sizes
(note `ips` and `ips_int` both count an IPv4 entry). -/
def count_entries (s : Storage) : Nat :=
  s.domains.length + s.urls.length + s.ips.length + s.ips_int.length +
    s.ips_str.length + s.cidr_metadata.length

/-! Reachable states: any sequence of loads, adds, batch adds and removals
starting from a fresh storage over an empty database. -/

/-- One public mutation, as exercised by the shard-invariant claim.  Single
and batch adds carry the commit outcome; `opReload` is `reload()`. -/
inductive Op where
  | opAddDomain (domain date : PyStr) (score : Int) (source : PyStr) (commitOk : Bool)
  | opAddUrl (url date : PyStr) (score : Int) (source : PyStr) (commitOk : Bool)
  | opAddIp (ip date : PyStr) (score : Int) (source : PyStr) (commitOk : Bool)
  | opAddDomains (rows : List (PyStr × PyStr × Int × PyStr)) (commitOk : Bool)
  | opAddUrls (rows : List (PyStr × PyStr × Int × PyStr)) (commitOk : Bool)
  | opAddIps (rows : List (PyStr × PyStr × Int × PyStr)) (commitOk : Bool)
  | opReload
  | opRemove (value : PyStr)

/-- Apply one operation to the joint in-memory/durable state. -/
def applyOp (sd : Storage × Database) : Op → Storage × Database
  | Op.opAddDomain d dt sc src ok =>
    let r := add_domain sd.1 sd.2 d dt sc src ok; (r.1, r.2.1)
  | Op.opAddUrl u dt sc src ok =>
    let r := add_url sd.1 sd.2 u dt sc src ok; (r.1, r.2.1)
  | Op.opAddIp i dt sc src ok =>
    let r := add_ip sd.1 sd.2 i dt sc src ok; (r.1, r.2.1)
  | Op.opAddDomains rows ok =>
    let r := add_domains sd.1 sd.2 rows ok; (r.1, r.2.1)
  | Op.opAddUrls rows ok =>
    let r := add_urls sd.1 sd.2 rows ok; (r.1, r.2.1)
  | Op.opAddIps rows ok =>
    let r := add_ips sd.1 sd.2 rows ok; (r.1, r.2.1)
  | Op.opReload => (load_all_data sd.1 sd.2, sd.2)
  | Op.opRemove v =>
    let r := remove_entry sd.1 sd.2 v; (r.1, r.2.1)

/-- The state reached by a sequence of operations. -/
def reach (ops : List Op) : Storage × Database :=
  ops.foldl applyOp (initStorage, emptyDb)

/-! Basic lemmas about the set and split/join primitives. -/

theorem mem_setAdd {α : Type} [DecidableEq α] {x y : α} {l : List α} :
    y ∈ setAdd x l ↔ y = x ∨ y ∈ l := by
  unfold setAdd
  split
  · rename_i hx
    constructor
    · exact fun h => Or.inr h
    · rintro (rfl | h)
      · exact hx
      · exact h
  · simp [List.mem_append, or_comm]

theorem mem_setDiscard {α : Type} [DecidableEq α] {x y : α} {l : List α} :
    y ∈ setDiscard x l ↔ y ∈ l ∧ y ≠ x := by
  simp [setDiscard]

theorem splitOnChar_ne_nil (sep : Char) (l : PyStr) : splitOnChar sep l ≠ [] := by
  cases l with
  | nil => simp [splitOnChar]
  | cons c rest =>
    unfold splitOnChar
    cases h : splitOnChar sep rest with
    | nil => simp
    | cons a b =>
      dsimp
      split <;> simp

theorem joinChar_cons_cons (sep c : Char) (h : PyStr) (t : List PyStr) :
    joinChar sep ((c :: h) :: t) = c :: joinChar sep (h :: t) := by
  cases t <;> simp [joinChar]

theorem joinChar_splitOnChar (sep : Char) (l : PyStr) :
    joinChar sep (splitOnChar sep l) = l := by
  induction l with
  | nil => simp [splitOnChar, joinChar]
  | cons c rest ih =>
    unfold splitOnChar
    cases h : splitOnChar sep rest with
    | nil => exact absurd h (splitOnChar_ne_nil sep rest)
    | cons a b =>
      rw [h] at ih
      dsimp
      split
      · rename_i hc
        subst hc
        simpa [joinChar] using ih
      · rw [joinChar_cons_cons, ih]

/-- The label suffixes of a domain string: splitting on `.`, the suffix
starting at each label (index 0 is the whole string). -/
def domainSuffixes (d : PyStr) : List PyStr :=
  let parts := splitOnChar '.' d
  (List.range parts.length).map fun k => joinChar '.' (parts.drop k)

/-- C1: `is_domain_blacklisted(d)` returns true if and only if some label
suffix of `lowercase(d)` (including the whole string) belongs to the stored
domain set, the union of the hot and cold domain shards. -/
theorem is_domain_blacklisted_iff_suffix (s : Storage) (domain : PyStr) :
    is_domain_blacklisted s domain = true ↔
      ∃ suf ∈ domainSuffixes (pyLower domain),
        suf ∈ s.hot_domains ∨ suf ∈ s.cold_domains := by
  unfold is_domain_blacklisted domainSuffixes
  have hlen : 0 < (splitOnChar '.' (pyLower domain)).length :=
    List.length_pos.mpr (splitOnChar_ne_nil _ _)
  have hjoin : joinChar '.' ((splitOnChar '.' (pyLower domain)).drop 0) = pyLower domain := by
    simpa using joinChar_splitOnChar '.' (pyLower domain)
  have key : ∀ P : PyStr → Prop,
      ((∃ k, k < (splitOnChar '.' (pyLower domain)).length ∧
          P (joinChar '.' ((splitOnChar '.' (pyLower domain)).drop k))) ↔
        (P (pyLower domain) ∨
          ∃ i ∈ List.range' 1 ((splitOnChar '.' (pyLower domain)).length - 1),
            P (joinChar '.' ((splitOnChar '.' (pyLower domain)).drop i)))) := by
    intro P
    constructor
    · rintro ⟨k, hk, hP⟩
      rcases Nat.eq_zero_or_pos k with rfl | hpos
      · rw [hjoin] at hP
        exact Or.inl hP
      · refine Or.inr ⟨k, ?_, hP⟩
        rw [List.mem_range']
        exact ⟨k - 1, by omega, by omega⟩
    · rintro (hP | ⟨i, hi, hP⟩)
      · exact ⟨0, hlen, by rw [hjoin]; exact hP⟩
      · rw [List.mem_range'] at hi
        obtain ⟨j, hj, rfl⟩ := hi
        exact ⟨1 + 1 * j, by omega, hP⟩
  simp only [Bool.or_eq_true, List.any_eq_true, decide_eq_true_eq, List.mem_map,
    List.mem_range]
  constructor
  · intro h
    rcases h with (((h | ⟨i, hi, h⟩) | h) | ⟨i, hi, h⟩)
    · exact ⟨pyLower domain, ⟨0, hlen, hjoin⟩, Or.inl h⟩
    · refine ⟨_, ⟨i, ?_, rfl⟩, Or.inl h⟩
      rw [List.mem_range'] at hi
      obtain ⟨j, hj, rfl⟩ := hi
      omega
    · exact ⟨pyLower domain, ⟨0, hlen, hjoin⟩, Or.inr h⟩
    · refine ⟨_, ⟨i, ?_, rfl⟩, Or.inr h⟩
      rw [List.mem_range'] at hi
      obtain ⟨j, hj, rfl⟩ := hi
      omega
  · rintro ⟨suf, ⟨k, hk, rfl⟩, hmem | hmem⟩
    · rcases (key (· ∈ s.hot_domains)).1 ⟨k, hk, hmem⟩ with h | ⟨i, hi, h⟩
      · exact Or.inl (Or.inl (Or.inl h))
      · exact Or.inl (Or.inl (Or.inr ⟨i, hi, h⟩))
    · rcases (key (· ∈ s.cold_domains)).1 ⟨k, hk, hmem⟩ with h | ⟨i, hi, h⟩
      · exact Or.inl (Or.inr h)
      · exact Or.inr ⟨i, hi, h⟩

/-! The shard invariant: per entity kind, the unified set is the union of the
hot and the cold shard (membership-wise). -/

/-- Union-of-shards property for one kind. -/
def unionInv {α : Type} (u h c : List α) : Prop := ∀ x, x ∈ u ↔ x ∈ h ∨ x ∈ c

def shardInv (s : Storage) : Prop :=
  unionInv s.domains s.hot_domains s.cold_domains ∧
  unionInv s.urls s.hot_urls s.cold_urls ∧
  unionInv s.ips_int s.hot_ips_int s.cold_ips_int ∧
  unionInv s.ips_str s.hot_ips_str s.cold_ips_str

theorem unionInv_nil {α : Type} : unionInv ([] : List α) [] [] := by
  intro x; simp

theorem unionInv_addHot {α : Type} [DecidableEq α] {u h c : List α} (k : α)
    (huc : unionInv u h c) : unionInv (setAdd k u) (setAdd k h) c := by
  intro x; rw [mem_setAdd, mem_setAdd, huc x]; tauto

theorem unionInv_addCold {α : Type} [DecidableEq α] {u h c : List α} (k : α)
    (huc : unionInv u h c) : unionInv (setAdd k u) h (setAdd k c) := by
  intro x; rw [mem_setAdd, mem_setAdd, huc x]; tauto

theorem unionInv_discard {α : Type} [DecidableEq α] {u h c : List α} (k : α)
    (huc : unionInv u h c) :
    unionInv (setDiscard k u) (setDiscard k h) (setDiscard k c) := by
  intro x; rw [mem_setDiscard, mem_setDiscard, mem_setDiscard, huc x]; tauto

theorem shardInv_add_domain (s : Storage) (db : Database) (d dt : PyStr) (sc : Int)
    (src : PyStr) (ok : Bool) (h : shardInv s) :
    shardInv (add_domain s db d dt sc src ok).1 := by
  obtain ⟨h1, h2, h3, h4⟩ := h
  unfold add_domain
  by_cases hsrc : src ∈ HOT_DOMAIN_SOURCES
  · simp only [if_pos hsrc]
    cases ok
    · exact ⟨unionInv_discard _ (unionInv_addHot _ h1), h2, h3, h4⟩
    · exact ⟨unionInv_addHot _ h1, h2, h3, h4⟩
  · simp only [if_neg hsrc]
    cases ok
    · exact ⟨unionInv_discard _ (unionInv_addCold _ h1), h2, h3, h4⟩
    · exact ⟨unionInv_addCold _ h1, h2, h3, h4⟩

theorem shardInv_add_url (s : Storage) (db : Database) (u dt : PyStr) (sc : Int)
    (src : PyStr) (ok : Bool) (h : shardInv s) :
    shardInv (add_url s db u dt sc src ok).1 := by
  obtain ⟨h1, h2, h3, h4⟩ := h
  unfold add_url
  by_cases hsrc : src ∈ HOT_URL_SOURCES
  · simp only [if_pos hsrc]
    cases ok
    · exact ⟨h1, unionInv_discard _ (unionInv_addHot _ h2), h3, h4⟩
    · exact ⟨h1, unionInv_addHot _ h2, h3, h4⟩
  · simp only [if_neg hsrc]
    cases ok
    · exact ⟨h1, unionInv_discard _ (unionInv_addCold _ h2), h3, h4⟩
    · exact ⟨h1, unionInv_addCold _ h2, h3, h4⟩

theorem shardInv_addCidrMem {s s1 : Storage} {ip : PyStr} {md : EntryMetadata}
    (hs : shardInv s) (h : addCidrMem s ip md = some s1) : shardInv s1 := by
  unfold addCidrMem at h
  split_ifs at h
  · cases hp : pytriciaSet6 s.ipv6_cidr_tree ip md.source <;> rw [hp] at h
    · simp at h
    · simp only [Option.map_some', Option.some.injEq] at h
      subst h
      exact hs
  · cases hp : pytriciaSet4 s.ipv4_cidr_tree ip md.source <;> rw [hp] at h
    · simp at h
    · simp only [Option.map_some', Option.some.injEq] at h
      subst h
      exact hs
  · simp only [Option.some.injEq] at h
    subst h
    exact hs

theorem shardInv_addSingleIpMem (s : Storage) (ip : PyStr) (md : EntryMetadata)
    (h : shardInv s) : shardInv (addSingleIpMem s ip md) := by
  obtain ⟨h1, h2, h3, h4⟩ := h
  unfold addSingleIpMem
  cases hint : ip_to_int ip
  · by_cases hsrc : md.source ∈ HOT_IP_SOURCES
    · simp only [if_pos hsrc]
      exact ⟨h1, h2, h3, unionInv_addHot _ h4⟩
    · simp only [if_neg hsrc]
      exact ⟨h1, h2, h3, unionInv_addCold _ h4⟩
  · by_cases hsrc : md.source ∈ HOT_IP_SOURCES
    · simp only [if_pos hsrc]
      exact ⟨h1, h2, unionInv_addHot _ h3, h4⟩
    · simp only [if_neg hsrc]
      exact ⟨h1, h2, unionInv_addCold _ h3, h4⟩

theorem shardInv_add_ip (s : Storage) (db : Database) (ip dt : PyStr) (sc : Int)
    (src : PyStr) (ok : Bool) (h : shardInv s) :
    shardInv (add_ip s db ip dt sc src ok).1 := by
  unfold add_ip
  dsimp only
  by_cases hcidr : '/' ∈ ip
  · simp only [if_pos hcidr]
    cases hm : addCidrMem s ip ⟨src, dt, sc⟩
    · exact h
    · have hs1 := shardInv_addCidrMem h hm
      obtain ⟨g1, g2, g3, g4⟩ := hs1
      cases ok
      · exact ⟨g1, g2, g3, g4⟩
      · exact ⟨g1, g2, g3, g4⟩
  · simp only [if_neg hcidr]
    have hs2 := shardInv_addSingleIpMem s ip ⟨src, dt, sc⟩ h
    obtain ⟨g1, g2, g3, g4⟩ := hs2
    cases ok
    · cases hint : ip_to_int ip
      · exact ⟨g1, g2, g3, unionInv_discard _ g4⟩
      · exact ⟨g1, g2, unionInv_discard _ g3, g4⟩
    · exact ⟨g1, g2, g3, g4⟩

theorem foldl_preserve {σ ρ : Type} {P : σ → Prop} {f : σ → ρ → σ}
    (hf : ∀ s r, P s → P (f s r)) :
    ∀ (rows : List ρ) (s : σ), P s → P (rows.foldl f s) := by
  intro rows
  induction rows with
  | nil => exact fun s hs => hs
  | cons r rest ih => exact fun s hs => ih _ (hf _ _ hs)

theorem shardInv_addDomainRowMem (s : Storage) (r : PyStr × PyStr × Int × PyStr)
    (h : shardInv s) : shardInv (addDomainRowMem s r) := by
  obtain ⟨h1, h2, h3, h4⟩ := h
  unfold addDomainRowMem
  dsimp only
  by_cases hsrc : r.2.2.2 ∈ HOT_DOMAIN_SOURCES
  · simp only [if_pos hsrc]
    exact ⟨unionInv_addHot _ h1, h2, h3, h4⟩
  · simp only [if_neg hsrc]
    exact ⟨unionInv_addCold _ h1, h2, h3, h4⟩

theorem shardInv_addUrlRowMem (s : Storage) (r : PyStr × PyStr × Int × PyStr)
    (h : shardInv s) : shardInv (addUrlRowMem s r) := by
  obtain ⟨h1, h2, h3, h4⟩ := h
  unfold addUrlRowMem
  dsimp only
  by_cases hsrc : r.2.2.2 ∈ HOT_URL_SOURCES
  · simp only [if_pos hsrc]
    exact ⟨h1, unionInv_addHot _ h2, h3, h4⟩
  · simp only [if_neg hsrc]
    exact ⟨h1, unionInv_addCold _ h2, h3, h4⟩

theorem shardInv_addIpRowMem {s s1 : Storage} {r : PyStr × PyStr × Int × PyStr}
    (h : shardInv s) (he : addIpRowMem s r = some s1) : shardInv s1 := by
  unfold addIpRowMem at he
  dsimp only at he
  by_cases hcidr : '/' ∈ r.1
  · rw [if_pos hcidr] at he
    cases hm : addCidrMem s r.1 ⟨r.2.2.2, r.2.1, r.2.2.1⟩ <;> rw [hm] at he
    · split_ifs at he
      cases he
      exact h
    · simp only [Option.some.injEq] at he
      subst he
      have := shardInv_addCidrMem h hm
      obtain ⟨g1, g2, g3, g4⟩ := this
      exact ⟨g1, g2, g3, g4⟩
  · rw [if_neg hcidr] at he
    simp only [Option.some.injEq] at he
    subst he
    exact shardInv_addSingleIpMem _ _ _ h

theorem shardInv_load_domains (s : Storage) (db : Database) (h : shardInv s) :
    shardInv (load_domains_from_db s db) := by
  unfold load_domains_from_db
  refine foldl_preserve ?_ _ _ h
  intro t r ht
  split
  · exact ht
  · exact shardInv_addDomainRowMem t r ht

theorem shardInv_load_urls (s : Storage) (db : Database) (h : shardInv s) :
    shardInv (load_urls_from_db s db) := by
  unfold load_urls_from_db
  refine foldl_preserve ?_ _ _ h
  intro t r ht
  split
  · exact ht
  · exact shardInv_addUrlRowMem t r ht

theorem shardInv_load_ips (s : Storage) (db : Database) (h : shardInv s) :
    shardInv (load_ips_from_db s db) := by
  unfold load_ips_from_db
  refine foldl_preserve ?_ _ _ h
  intro t r ht
  split
  · exact ht
  · cases hm : addIpRowMem t r
    · exact ht
    · exact shardInv_addIpRowMem ht hm

theorem shardInv_addIpsLoop : ∀ (rows : List (PyStr × PyStr × Int × PyStr)) (s : Storage),
    shardInv s → shardInv (addIpsLoop s rows).1 := by
  intro rows
  induction rows with
  | nil => exact fun s hs => hs
  | cons r rest ih =>
    intro s hs
    unfold addIpsLoop
    cases hm : addIpRowMem s r
    · exact hs
    · exact ih _ (shardInv_addIpRowMem hs hm)

theorem shardInv_add_domains (s : Storage) (db : Database)
    (rows : List (PyStr × PyStr × Int × PyStr)) (ok : Bool) (h : shardInv s) :
    shardInv (add_domains s db rows ok).1 := by
  unfold add_domains
  cases ok
  · exact shardInv_load_domains _ _ (foldl_preserve shardInv_addDomainRowMem rows s h)
  · exact foldl_preserve shardInv_addDomainRowMem rows s h

theorem shardInv_add_urls (s : Storage) (db : Database)
    (rows : List (PyStr × PyStr × Int × PyStr)) (ok : Bool) (h : shardInv s) :
    shardInv (add_urls s db rows ok).1 := by
  unfold add_urls
  cases ok
  · exact shardInv_load_urls _ _ (foldl_preserve shardInv_addUrlRowMem rows s h)
  · exact foldl_preserve shardInv_addUrlRowMem rows s h

theorem shardInv_add_ips (s : Storage) (db : Database)
    (rows : List (PyStr × PyStr × Int × PyStr)) (ok : Bool) (h : shardInv s) :
    shardInv (add_ips s db rows ok).1 := by
  unfold add_ips
  have hloop := shardInv_addIpsLoop rows s h
  dsimp only
  split
  · exact hloop
  · split
    · exact hloop
    · exact shardInv_load_ips _ _ hloop

theorem shardInv_load_all (s : Storage) (db : Database) :
    shardInv (load_all_data s db) := by
  unfold load_all_data
  refine shardInv_load_ips _ _ (shardInv_load_urls _ _ (shardInv_load_domains _ _ ?_))
  exact ⟨unionInv_nil, unionInv_nil, unionInv_nil, unionInv_nil⟩

theorem shardInv_removeDomainStep (s : Storage) (v : PyStr) (h : shardInv s) :
    shardInv (removeDomainStep s v).1 := by
  obtain ⟨h1, h2, h3, h4⟩ := h
  unfold removeDomainStep
  split
  · exact ⟨unionInv_discard _ h1, h2, h3, h4⟩
  · exact ⟨h1, h2, h3, h4⟩

theorem shardInv_removeUrlStep (s : Storage) (v : PyStr) (h : shardInv s) :
    shardInv (removeUrlStep s v).1 := by
  obtain ⟨h1, h2, h3, h4⟩ := h
  unfold removeUrlStep
  dsimp only
  split
  · exact ⟨h1, unionInv_discard _ h2, h3, h4⟩
  · exact ⟨h1, h2, h3, h4⟩

theorem shardInv_removeIpStrStep (s : Storage) (v : PyStr) (h : shardInv s) :
    shardInv (removeIpStrStep s v).1 := by
  obtain ⟨h1, h2, h3, h4⟩ := h
  unfold removeIpStrStep
  split
  · exact ⟨h1, h2, h3, unionInv_discard _ h4⟩
  · exact ⟨h1, h2, h3, h4⟩

theorem shardInv_removeIpIntStep (s : Storage) (v : PyStr) (h : shardInv s) :
    shardInv (removeIpIntStep s v).1 := by
  obtain ⟨h1, h2, h3, h4⟩ := h
  unfold removeIpIntStep
  cases hint : ip_to_int v
  · exact ⟨h1, h2, h3, h4⟩
  · dsimp only
    split
    · exact ⟨h1, h2, unionInv_discard _ h3, h4⟩
    · exact ⟨h1, h2, h3, h4⟩

theorem shardInv_removeCidrStep (s : Storage) (v : PyStr) (h : shardInv s) :
    shardInv (removeCidrStep s v).1 := by
  obtain ⟨h1, h2, h3, h4⟩ := h
  unfold removeCidrStep
  split
  · exact ⟨h1, h2, h3, h4⟩
  · exact ⟨h1, h2, h3, h4⟩

theorem shardInv_remove_entry (s : Storage) (db : Database) (v : PyStr)
    (h : shardInv s) : shardInv (remove_entry s db v).1 := by
  unfold remove_entry
  dsimp only
  have k5 := shardInv_removeCidrStep _ v (shardInv_removeIpIntStep _ v
    (shardInv_removeIpStrStep _ v (shardInv_removeUrlStep _ v
      (shardInv_removeDomainStep s v h))))
  split
  · exact k5
  · exact k5

theorem shardInv_applyOp (sd : Storage × Database) (op : Op) (h : shardInv sd.1) :
    shardInv (applyOp sd op).1 := by
  cases op with
  | opAddDomain d dt sc src ok => exact shardInv_add_domain _ _ _ _ _ _ _ h
  | opAddUrl u dt sc src ok => exact shardInv_add_url _ _ _ _ _ _ _ h
  | opAddIp i dt sc src ok => exact shardInv_add_ip _ _ _ _ _ _ _ h
  | opAddDomains rows ok => exact shardInv_add_domains _ _ _ _ h
  | opAddUrls rows ok => exact shardInv_add_urls _ _ _ _ h
  | opAddIps rows ok => exact shardInv_add_ips _ _ _ _ h
  | opReload => exact shardInv_load_all _ _
  | opRemove v => exact shardInv_remove_entry _ _ _ h

/-- C3 (amended): for each entity kind (domains, URLs, IPv4 as packed ints,
IPv6 strings), in every state reachable by any sequence of load, add,
add-batch, and remove operations, the union of the hot shard and the cold
shard equals the unified set for that kind.  (The disjointness half of the
original claim is refuted by `shard_disjointness_counterexample`.) -/
theorem reach_shard_union (ops : List Op) : shardInv (reach ops).1 := by
  unfold reach
  exact @foldl_preserve (Storage × Database) Op (fun sd => shardInv sd.1) applyOp
    shardInv_applyOp ops (initStorage, emptyDb)
    ⟨unionInv_nil, unionInv_nil, unionInv_nil, unionInv_nil⟩

/-- C3 counterexample: the shards are not disjoint in every reachable state.
Adding `evil.com` from the cold source `OpenPhish` and then again from the
hot source `PhishTank` (both commits succeeding) leaves the domain in both
shards. -/
theorem shard_disjointness_counterexample :
    pStr ("evil.com") ∈
        (reach [Op.opAddDomain (pStr ("evil.com")) (pStr ("2025-01-01")) 9
            (pStr ("OpenPhish")) true,
          Op.opAddDomain (pStr ("evil.com")) (pStr ("2025-02-02")) 9
            (pStr ("PhishTank")) true]).1.hot_domains ∧
      pStr ("evil.com") ∈
        (reach [Op.opAddDomain (pStr ("evil.com")) (pStr ("2025-01-01")) 9
            (pStr ("OpenPhish")) true,
          Op.opAddDomain (pStr ("evil.com")) (pStr ("2025-02-02")) 9
            (pStr ("PhishTank")) true]).1.cold_domains := by
  decide

/-! Concrete runs of the code at inputs where its behaviour departs from its
own documentation and tests. -/

/-- C2: the durable-failure rollback of `add_domain` does not restore the
pre-call state when the key already exists.  After `evil.com` is stored from
`OpenPhish`, a failed `add_domain` of the same key from `PhishTank` raises
and leaves the domain removed from memory instead of restored. -/
theorem add_domain_rollback_loses_preexisting_entry :
    (let s0 := (reach [Op.opAddDomain (pStr ("evil.com")) (pStr ("2025-01-01")) 9
        (pStr ("OpenPhish")) true]).1
     let r := add_domain s0 emptyDb (pStr ("evil.com")) (pStr ("2025-02-02")) 5
        (pStr ("PhishTank")) false
     r.2.2 = true ∧ pStr ("evil.com") ∈ s0.domains ∧ pStr ("evil.com") ∉ r.1.domains ∧
       r.1 ≠ s0) := by
  decide

/-- C4: URL canonicalization is not idempotent.  On
`http://evil.com/a;p/` the first pass strips the trailing slash but keeps the
path parameters (they sit behind the slash during parameter splitting); the
second pass then drops them, so `canon(canon(u))` differs from `canon(u)`. -/
theorem normalize_url_not_idempotent :
    normalize_url (pStr ("http://evil.com/a;p/")) = pStr ("http://evil.com/a;p") ∧
    normalize_url (normalize_url (pStr ("http://evil.com/a;p/"))) = pStr ("http://evil.com/a") ∧
    normalize_url (normalize_url (pStr ("http://evil.com/a;p/"))) ≠
      normalize_url (pStr ("http://evil.com/a;p/")) := by
  decide

/-- C5: `normalize_url` keeps a bare root path as `/` (because
`path.rstrip("/") or "/"` turns the stripped-empty path back into `/`), so
`normalize_url("HTTP://EVIL.COM/")` is `http://evil.com/`, not the
`http://evil.com` the docstring, the test suite and the claim state; and it
strips every trailing slash, not a single one. -/
theorem normalize_url_keeps_root_slash :
    normalize_url (pStr ("HTTP://EVIL.COM/")) = pStr ("http://evil.com/") ∧
    normalize_url (pStr ("HTTP://EVIL.COM/")) ≠ pStr ("http://evil.com") ∧
    normalize_url (pStr ("http://evil.com/path/")) = pStr ("http://evil.com/path") ∧
    normalize_url (pStr ("http://evil.com/path//")) = pStr ("http://evil.com/path") := by
  decide

/-- C6: `ip_to_int` performs no octet range check: the invalid address
`300.0.0.1` is packed to `300 * 2^24 + 1` instead of being rejected. -/
theorem ip_to_int_accepts_out_of_range_octet :
    ip_to_int (pStr ("300.0.0.1")) = some 5033164801 := by
  decide

/-- C8: after adding the single IPv4 address `1.2.3.4` to an empty index,
`count_entries()` returns 2, not 1: the address is counted once in the legacy
string set `ips` and once in the packed set `ips_int`. -/
theorem count_entries_double_counts_ipv4 :
    count_entries (reach [Op.opAddIp (pStr ("1.2.3.4")) (pStr ("2025-01-01")) 9
      (pStr ("BlocklistDE")) true]).1 = 2 := by
  decide

/-- C9: `is_ip_blacklisted` is total (Bool-valued, every internal parse
failure caught) and returns false for any address that parses as neither IPv4
nor IPv6 and matches no stored entry (neither the packed-int sets via the
range-unchecked `ip_to_int`, nor the string sets). -/
theorem is_ip_blacklisted_unparseable_false (s : Storage) (addr : PyStr)
    (hp4 : parseIPv4 addr = none) (hp6 : parseIPv6 addr = none)
    (hint : ∀ n, ip_to_int addr = some n → n ∉ s.hot_ips_int ∧ n ∉ s.cold_ips_int)
    (hs1 : addr ∉ s.hot_ips_str) (hs2 : addr ∉ s.cold_ips_str) :
    is_ip_blacklisted s addr = false := by
  have hcidr : cidrCheck s addr = false := by
    unfold cidrCheck
    cases hu : s.use_pytricia
    · simp only [Bool.false_eq_true, if_false]
      unfold ip_address
      rw [hp4, hp6]
      rfl
    · simp only [if_true]
      by_cases hc : ':' ∈ addr
      · rw [if_pos hc]
        unfold pytriciaContains6
        rw [hp6]
        rfl
      · rw [if_neg hc]
        unfold pytriciaContains4
        rw [hp4]
        rfl
  unfold is_ip_blacklisted
  dsimp only
  cases hi : ip_to_int addr with
  | none => simp [hs1, hs2, hcidr]
  | some n =>
    obtain ⟨hn1, hn2⟩ := hint n hi
    simp [hn1, hn2, hcidr]

/-- Witness for C9 at the concrete unparseable address `garbage` over a
fresh storage. -/
theorem is_ip_blacklisted_unparseable_false_check :
    is_ip_blacklisted initStorage (pStr ("garbage")) = false :=
  is_ip_blacklisted_unparseable_false initStorage (pStr ("garbage")) (by decide) (by decide)
    (fun n hn => by
      rw [(by decide : ip_to_int (pStr ("garbage")) = none)] at hn
      exact Option.noConfusion hn)
    (by decide) (by decide)

/-- C10: when the value is absent from every in-memory structure (domain set
after lowercasing, URL set after normalization, both string IP sets, the
packed-int set, and the CIDR metadata map), `remove_entry` returns false and
leaves the storage and all three database tables unchanged. -/
theorem remove_entry_absent_is_noop (s : Storage) (db : Database) (value : PyStr)
    (h1 : pyLower value ∉ s.domains) (h2 : normalize_url value ∉ s.urls)
    (h3 : value ∉ s.ips) (h4 : value ∉ s.ips_str)
    (h5 : ∀ n, ip_to_int value = some n → n ∉ s.ips_int)
    (h6 : dictMem value s.cidr_metadata = false) :
    remove_entry s db value = (s, db, false) := by
  have e1 : removeDomainStep s value = (s, false) := by
    unfold removeDomainStep
    rw [if_neg h1]
  have e2 : removeUrlStep s value = (s, false) := by
    unfold removeUrlStep
    dsimp only
    rw [if_neg h2]
  have e3 : removeIpStrStep s value = (s, false) := by
    unfold removeIpStrStep
    rw [if_neg (by tauto : ¬(value ∈ s.ips ∨ value ∈ s.ips_str))]
  have e4 : removeIpIntStep s value = (s, false) := by
    unfold removeIpIntStep
    cases hint : ip_to_int value
    · rfl
    · rename_i n
      dsimp only
      rw [if_neg (h5 n hint)]
  have e5 : removeCidrStep s value = (s, false) := by
    unfold removeCidrStep
    rw [h6]
    rfl
  unfold remove_entry
  simp only [e1, e2, e3, e4, e5, Bool.or_self, Bool.or_false, Bool.false_or,
    Bool.false_eq_true, if_false]

/-- Witness for C10: removing the absent value `absent.example` from a fresh
storage over a database holding one domain row changes nothing and returns
false. -/
theorem remove_entry_absent_is_noop_check :
    remove_entry initStorage
        ⟨[(pStr ("evil.com"), pStr ("2025-01-01"), 9, pStr ("PhishTank"))], [], []⟩
        (pStr ("absent.example")) =
      (initStorage,
        ⟨[(pStr ("evil.com"), pStr ("2025-01-01"), 9, pStr ("PhishTank"))], [], []⟩,
        false) :=
  remove_entry_absent_is_noop initStorage
    ⟨[(pStr ("evil.com"), pStr ("2025-01-01"), 9, pStr ("PhishTank"))], [], []⟩
    (pStr ("absent.example")) (by decide) (by decide) (by decide) (by decide)
    (fun n hn => by
      rw [(by decide : ip_to_int (pStr ("absent.example")) = none)] at hn
      exact Option.noConfusion hn)
    (by decide)

/-! Decimal representation and parsing lemmas for the IPv4 pack/unpack
roundtrip. -/

theorem digitChar_isDigit {d : Nat} (hd : d < 10) :
    (Char.ofNat (48 + d)).isDigit = true := by
  interval_cases d <;> decide

theorem digitChar_toNat {d : Nat} (hd : d < 10) :
    (Char.ofNat (48 + d)).toNat = 48 + d := by
  interval_cases d <;> decide

theorem isDigit_not_space {c : Char} (h : c.isDigit = true) : isPySpace c = false := by
  unfold Char.isDigit at h
  unfold isPySpace
  simp only [Bool.and_eq_true, decide_eq_true_eq] at h
  simp only [decide_eq_false_iff_not]
  rintro (rfl | rfl | rfl | rfl | rfl | rfl) <;> simp at h

theorem isDigit_ne_of_not {c x : Char} (h : c.isDigit = true) (hx : x.isDigit = false) :
    c ≠ x := by
  intro he
  rw [he] at h
  rw [h] at hx
  exact Bool.noConfusion hx

theorem natRepr_all_digits (n : Nat) : ∀ c ∈ natRepr n, c.isDigit = true := by
  intro c hc
  unfold natRepr at hc
  split at hc
  · rw [List.mem_singleton] at hc
    subst hc
    decide
  · rw [List.mem_map] at hc
    obtain ⟨d, hd, rfl⟩ := hc
    rw [List.mem_reverse] at hd
    exact digitChar_isDigit (Nat.digits_lt_base (by omega) hd)

theorem natRepr_ne_nil (n : Nat) : natRepr n ≠ [] := by
  unfold natRepr
  split
  · simp
  · simp only [ne_eq, List.map_eq_nil_iff, List.reverse_eq_nil_iff]
    rename_i h
    exact Nat.digits_ne_nil_iff_ne_zero.mpr h

theorem dropWhile_eq_self_of_forall {p : Char → Bool} {l : PyStr}
    (h : ∀ c ∈ l, p c = false) : l.dropWhile p = l := by
  cases l with
  | nil => rfl
  | cons a t => simp [List.dropWhile, h a (List.mem_cons_self a t)]

theorem stripWs_eq_self {l : PyStr} (h : ∀ c ∈ l, isPySpace c = false) :
    stripWs l = l := by
  unfold stripWs
  rw [dropWhile_eq_self_of_forall h]
  rw [dropWhile_eq_self_of_forall (fun c hc => h c (List.mem_reverse.mp hc))]
  exact List.reverse_reverse l

theorem foldl_digit_chars (l : List Nat) (hl : ∀ d ∈ l, d < 10) : ∀ acc : Nat,
    ((l.reverse.map (fun d => Char.ofNat (48 + d))).foldl
      (fun a c => a * 10 + (c.toNat - 48)) acc) =
      acc * 10 ^ l.length + Nat.ofDigits 10 l := by
  induction l with
  | nil => intro acc; simp
  | cons d t ih =>
    intro acc
    have hd : d < 10 := hl d (List.mem_cons_self d t)
    have ht : ∀ x ∈ t, x < 10 := fun x hx => hl x (List.mem_cons_of_mem d hx)
    rw [List.reverse_cons, List.map_append, List.foldl_append, ih ht acc]
    simp only [List.map_cons, List.map_nil, List.foldl_cons, List.foldl_nil,
      digitChar_toNat hd, Nat.ofDigits_cons, List.length_cons]
    have : 48 + d - 48 = d := by omega
    rw [this]
    ring

theorem pyInt_natRepr (n : Nat) : pyInt (natRepr n) = some (n : Int) := by
  by_cases hn0 : n = 0
  · subst hn0
    decide
  · have hrep : natRepr n = (Nat.digits 10 n).reverse.map (fun d => Char.ofNat (48 + d)) := by
      unfold natRepr
      rw [if_neg hn0]
    have hdig := natRepr_all_digits n
    have hnil := natRepr_ne_nil n
    unfold pyInt
    rw [stripWs_eq_self (fun c hc => isDigit_not_space (hdig c hc))]
    obtain ⟨c, cs, hcons⟩ : ∃ c cs, natRepr n = c :: cs := by
      cases hx : natRepr n with
      | nil => exact absurd hx hnil
      | cons a b => exact ⟨a, b, rfl⟩
    have hcdig : c.isDigit = true := hdig c (by rw [hcons]; exact List.mem_cons_self c cs)
    have hcm : c ≠ '-' := isDigit_ne_of_not hcdig (by decide)
    have hcp : c ≠ '+' := isDigit_ne_of_not hcdig (by decide)
    rw [hcons]
    dsimp only
    rw [if_neg (by simp [hcm] : ¬((c :: cs).take 1 = ['-'])),
      if_neg (by simp [hcp] : ¬((c :: cs).take 1 = ['+']))]
    have hall : (c :: cs).all Char.isDigit = true := by
      rw [List.all_eq_true]
      intro x hx
      exact hdig x (by rw [hcons]; exact hx)
    rw [if_neg (by simp : ¬(c :: cs = [])), if_pos hall]
    have hfold : ((c :: cs).foldl (fun a ch => a * 10 + (ch.toNat - 48)) 0) = n := by
      rw [← hcons, hrep,
        foldl_digit_chars (Nat.digits 10 n) (fun d hd => Nat.digits_lt_base (by omega) hd) 0]
      rw [Nat.ofDigits_digits]
      omega
    rw [hfold]
    rfl

theorem splitOnChar_of_not_mem {sep : Char} {A : PyStr} (h : sep ∉ A) :
    splitOnChar sep A = [A] := by
  induction A with
  | nil => rfl
  | cons c t ih =>
    have hct : sep ∉ t := fun hm => h (List.mem_cons_of_mem c hm)
    have hc : c ≠ sep := fun he => h (he ▸ List.mem_cons_self c t)
    rw [splitOnChar, ih hct]
    simp [hc]

theorem splitOnChar_append {sep : Char} {A rest : PyStr} (h : sep ∉ A) :
    splitOnChar sep (A ++ sep :: rest) = A :: splitOnChar sep rest := by
  induction A with
  | nil =>
    simp only [List.nil_append]
    cases hx : splitOnChar sep rest with
    | nil => exact absurd hx (splitOnChar_ne_nil sep rest)
    | cons a b =>
      rw [splitOnChar, hx]
      simp
  | cons c t ih =>
    have hct : sep ∉ t := fun hm => h (List.mem_cons_of_mem c hm)
    have hc : c ≠ sep := fun he => h (he ▸ List.mem_cons_self c t)
    show splitOnChar sep (c :: (t ++ sep :: rest)) = (c :: t) :: splitOnChar sep rest
    rw [splitOnChar, ih hct]
    simp [hc]

theorem not_mem_natRepr_of_not_digit {x : Char} (hx : x.isDigit = false) (n : Nat) :
    x ∉ natRepr n := by
  intro hm
  have := natRepr_all_digits n x hm
  rw [hx] at this
  exact Bool.noConfusion this

theorem ipv4Str_shape (a b c d : Nat) :
    ipv4Str a b c d =
      natRepr a ++ '.' :: (natRepr b ++ '.' :: (natRepr c ++ '.' :: natRepr d)) := by
  unfold ipv4Str
  simp [List.cons_append, List.append_assoc]

theorem colon_not_mem_ipv4Str (a b c d : Nat) : ':' ∉ ipv4Str a b c d := by
  rw [ipv4Str_shape]
  intro hm
  have h1 := not_mem_natRepr_of_not_digit (by decide : (':' : Char).isDigit = false)
  simp only [List.mem_append, List.mem_cons] at hm
  rcases hm with h | hm
  · exact h1 a h
  · rcases hm with h | hm
    · exact absurd h (by decide)
    · rcases hm with h | hm
      · exact h1 b h
      · rcases hm with h | hm
        · exact absurd h (by decide)
        · rcases hm with h | hm
          · exact h1 c h
          · rcases hm with h | h
            · exact absurd h (by decide)
            · exact h1 d h

theorem ip_to_int_ipv4Str (a b c d : Nat) :
    ip_to_int (ipv4Str a b c d) =
      some ((a : Int) * 2 ^ 24 + (b : Int) * 2 ^ 16 + (c : Int) * 2 ^ 8 + (d : Int)) := by
  have hdot : ∀ n : Nat, '.' ∉ natRepr n :=
    fun n => not_mem_natRepr_of_not_digit (by decide) n
  unfold ip_to_int
  rw [if_neg (colon_not_mem_ipv4Str a b c d)]
  rw [ipv4Str_shape]
  rw [splitOnChar_append (hdot a), splitOnChar_append (hdot b), splitOnChar_append (hdot c),
    splitOnChar_of_not_mem (hdot d)]
  dsimp only
  rw [pyInt_natRepr, pyInt_natRepr, pyInt_natRepr, pyInt_natRepr]

theorem pyShr_natCast (x k : Nat) : pyShr (x : Int) k = ((x / 2 ^ k : Nat) : Int) := by
  unfold pyShr
  rw [Int.fdiv_eq_ediv _ (by positivity)]
  rw [show ((2 : Int) ^ k) = ((2 ^ k : Nat) : Int) by push_cast; ring]
  exact_mod_cast (Int.natCast_div x (2 ^ k)).symm

theorem pyAnd255_natCast (x : Nat) : pyAnd255 (x : Int) = x % 256 := by
  unfold pyAnd255
  have : ((x : Int)).emod 256 = ((x % 256 : Nat) : Int) := by
    rw [show ((256 : Int)) = ((256 : Nat) : Int) by norm_num]
    exact (Int.natCast_mod x 256).symm
  rw [this]
  exact Int.toNat_natCast _

theorem int_to_ip_pack (a b c d : Nat) (ha : a ≤ 255) (hb : b ≤ 255) (hc : c ≤ 255)
    (hd : d ≤ 255) :
    int_to_ip (((a * 2 ^ 24 + b * 2 ^ 16 + c * 2 ^ 8 + d : Nat) : Int)) = ipv4Str a b c d := by
  have p24 : (2 : Nat) ^ 24 = 16777216 := by norm_num
  have p16 : (2 : Nat) ^ 16 = 65536 := by norm_num
  have p8 : (2 : Nat) ^ 8 = 256 := by norm_num
  have e24 : (a * 2 ^ 24 + b * 2 ^ 16 + c * 2 ^ 8 + d) / 2 ^ 24 % 256 = a := by
    rw [p24, p16, p8]; omega
  have e16 : (a * 2 ^ 24 + b * 2 ^ 16 + c * 2 ^ 8 + d) / 2 ^ 16 % 256 = b := by
    rw [p24, p16, p8]; omega
  have e8 : (a * 2 ^ 24 + b * 2 ^ 16 + c * 2 ^ 8 + d) / 2 ^ 8 % 256 = c := by
    rw [p24, p16, p8]; omega
  have e0 : (a * 2 ^ 24 + b * 2 ^ 16 + c * 2 ^ 8 + d) % 256 = d := by
    rw [p24, p16, p8]; omega
  unfold int_to_ip
  rw [pyShr_natCast, pyShr_natCast, pyShr_natCast, pyAnd255_natCast, pyAnd255_natCast,
    pyAnd255_natCast, pyAnd255_natCast, e24, e16, e8, e0]
  rw [ipv4Str_shape]
  simp [joinChar, List.cons_append, List.append_assoc]

/-- C7: for every IPv4 string (canonical dotted quad `a.b.c.d` with octets in
[0,255]), packing succeeds and unpacking the packed value yields the string
back: `int_to_ip(ip_to_int(v)) = v`. -/
theorem ipv4_pack_unpack_roundtrip (a b c d : Nat) (ha : a ≤ 255) (hb : b ≤ 255)
    (hc : c ≤ 255) (hd : d ≤ 255) :
    ∃ n : Int, ip_to_int (ipv4Str a b c d) = some n ∧ int_to_ip n = ipv4Str a b c d := by
  refine ⟨((a * 2 ^ 24 + b * 2 ^ 16 + c * 2 ^ 8 + d : Nat) : Int), ?_,
    int_to_ip_pack a b c d ha hb hc hd⟩
  rw [ip_to_int_ipv4Str]
  congr 1

/-- Witness for C7 at the concrete address `192.168.1.1`. -/
theorem ipv4_pack_unpack_roundtrip_check :
    ∃ n : Int, ip_to_int (ipv4Str 192 168 1 1) = some n ∧
      int_to_ip n = ipv4Str 192 168 1 1 :=
  ipv4_pack_unpack_roundtrip 192 168 1 1 (by decide) (by decide) (by decide) (by decide)
